import Mathlib

/-!
Verification of the DCR-graph simulation core of the dcr-js repository.

The data model is embedded from src/modeler/lib/simulator/types.ts:
events are string ids, a marking is three sets (executed, included,
pending), a relation map (EventMap) is a finite map from event id to a
set of event ids, and a DCRGraph node carries its events, its child
sub-process graphs, its five relation maps and its own marking.  The
non-owning back-reference field `parent` of types.ts is used only for
traversal and is not representable in a purely inductive tree, so it is
omitted from the embedding.

The simulation operations (allEvents, relationTargets,
resolveToLeafEvents, initial, isEnabled, execute, and the Set-extension
operations union / intersect / difference) are declared or consumed in
the repository but their implementations are not part of the sampled
sources, so they are modelled from the specification; each such
definition carries a doc comment saying so.
-/

namespace DCR

/-- The dynamic state of a graph instance: which events have executed,
are currently included, and are currently pending
(types.ts, interface Marking). -/
structure Marking where
  executed : Finset String
  included : Finset String
  pending : Finset String
deriving DecidableEq

/-- Map from event to a set of events, used to denote the different
relations between events (types.ts, interface EventMap).  The
TypeScript value is an object keyed by the source event id; it is
embedded as an association list, and lookups on absent keys yield the
empty set. -/
abbrev EventMap : Type := List (String × Finset String)

/-- A node in the tree of process scopes (types.ts, interface
DCRGraph): its id, the event ids declared directly in this scope, the
child sub-process graphs, the five relation maps, and its own marking
field. -/
inductive DCRGraph where
  | mk
      (id : String)
      (events : Finset String)
      (subProcesses : List DCRGraph)
      (conditionsFor : EventMap)
      (milestonesFor : EventMap)
      (responseTo : EventMap)
      (includesTo : EventMap)
      (excludesTo : EventMap)
      (marking : Marking)

def DCRGraph.id : DCRGraph → String
  | .mk i _ _ _ _ _ _ _ _ => i

def DCRGraph.events : DCRGraph → Finset String
  | .mk _ e _ _ _ _ _ _ _ => e

def DCRGraph.subProcesses : DCRGraph → List DCRGraph
  | .mk _ _ s _ _ _ _ _ _ => s

def DCRGraph.conditionsFor : DCRGraph → EventMap
  | .mk _ _ _ c _ _ _ _ _ => c

def DCRGraph.milestonesFor : DCRGraph → EventMap
  | .mk _ _ _ _ m _ _ _ _ => m

def DCRGraph.responseTo : DCRGraph → EventMap
  | .mk _ _ _ _ _ r _ _ _ => r

def DCRGraph.includesTo : DCRGraph → EventMap
  | .mk _ _ _ _ _ _ i _ _ => i

def DCRGraph.excludesTo : DCRGraph → EventMap
  | .mk _ _ _ _ _ _ _ e _ => e

def DCRGraph.marking : DCRGraph → Marking
  | .mk _ _ _ _ _ _ _ _ m => m

/-- Modelled from the spec: `relationTargets(kind, eventId)` — lookup
in a relation map, returning the empty set for an unregistered source
(absent key ≡ empty set); the implementation of the lookup is not in
the sampled sources, only the EventMap declaration is. -/
def relationTargets (rel : EventMap) (e : String) : Finset String :=
  match rel with
  | [] => ∅
  | (k, v) :: rest => if k = e then v else relationTargets rest e

mutual

/-- Modelled from the spec: `allEvents(graph)` — the flattened set of
every event id in this graph plus every descendant sub-process; the
implementation is not in the sampled sources. -/
def allEvents : DCRGraph → Finset String
  | .mk _ evs subs _ _ _ _ _ _ => evs ∪ allEventsList subs

def allEventsList : List DCRGraph → Finset String
  | [] => ∅
  | g :: gs => allEvents g ∪ allEventsList gs

end

mutual

/-- Modelled from the spec: lookup of the sub-process (at any depth
below the given graph) whose id is the given id; part of
`resolveToLeafEvents`, whose implementation is not in the sampled
sources. -/
def findSubProcess (g : DCRGraph) (i : String) : Option DCRGraph :=
  match g with
  | .mk _ _ subs _ _ _ _ _ _ => findSubProcessList subs i

def findSubProcessList (gs : List DCRGraph) (i : String) : Option DCRGraph :=
  match gs with
  | [] => none
  | g :: rest =>
    if g.id = i then some g
    else
      match findSubProcess g i with
      | some r => some r
      | none => findSubProcessList rest i

end

/-- Modelled from the spec: `resolveToLeafEvents(id)` — if `id` names a
sub-process, the full recursive set of leaf event ids contained in it
at every depth; if `id` names a leaf event, the singleton of itself;
the implementation is not in the sampled sources. -/
def resolveToLeafEvents (g : DCRGraph) (i : String) : Finset String :=
  match findSubProcess g i with
  | some s => allEvents s
  | none => {i}

/-- Modelled from the spec: `initial(graph, defaultAllIncluded)` —
executed and pending empty, included either all events or empty; the
implementation is not in the sampled sources. -/
def initial (g : DCRGraph) (defaultAllIncluded : Bool) : Marking :=
  { executed := ∅
    included := if defaultAllIncluded then allEvents g else ∅
    pending := ∅ }

/-- The error kinds of the simulation core (spec section 7). -/
inductive SimError where
  | UnknownEventError
  | NotEnabledError
deriving DecidableEq

deriving instance DecidableEq for Except

/-- Modelled from the spec: `isEnabled(graph, marking, eventId)` — the
enablement predicate, following the spec's steps 1-5: unknown events
fail, excluded events are not enabled, each included condition source
must be executed, each included milestone source must not be pending;
the implementation is not in the sampled sources. -/
def isEnabled (g : DCRGraph) (m : Marking) (e : String) :
    Except SimError Bool :=
  if e ∉ allEvents g then .error .UnknownEventError
  else if e ∉ m.included then .ok false
  else if ¬ (∀ c ∈ relationTargets g.conditionsFor e,
      c ∈ m.included → c ∈ m.executed) then .ok false
  else if ¬ (∀ ms ∈ relationTargets g.milestonesFor e,
      ms ∈ m.included → ms ∉ m.pending) then .ok false
  else .ok true

/-- The include targets of one firing, pre-expanded to leaf events. -/
def expandedIncludes (g : DCRGraph) (e : String) : Finset String :=
  (relationTargets g.includesTo e).biUnion (resolveToLeafEvents g)

/-- The exclude targets of one firing, pre-expanded to leaf events. -/
def expandedExcludes (g : DCRGraph) (e : String) : Finset String :=
  (relationTargets g.excludesTo e).biUnion (resolveToLeafEvents g)

/-- Modelled from the spec: `execute(graph, marking, eventId)` — fails
with NotEnabledError when the event is not enabled, otherwise returns
the next marking: the event is added to executed, its own pending
obligation is discharged and the response targets become pending, and
the included set gains the leaf-expanded include targets and loses the
leaf-expanded exclude targets, exclusion taking precedence; the
implementation is not in the sampled sources. -/
def execute (g : DCRGraph) (m : Marking) (e : String) :
    Except SimError Marking :=
  match isEnabled g m e with
  | .error err => .error err
  | .ok false => .error .NotEnabledError
  | .ok true =>
    .ok
      { executed := m.executed ∪ {e}
        included := (m.included ∪ expandedIncludes g e) \ expandedExcludes g e
        pending := (m.pending \ {e}) ∪ relationTargets g.responseTo e }

/-- A sequence of execute calls, threading the marking; the first
failure aborts the run. -/
def executeSeq (g : DCRGraph) (m : Marking) : List String → Except SimError Marking
  | [] => .ok m
  | e :: es =>
    match execute g m e with
    | .ok next => executeSeq g next es
    | .error err => .error err

mutual

/-- All graph nodes of the tree: the node itself together with every
sub-process node at every depth (types.ts: each DCRGraph value carries
`subProcesses: Set<DCRGraph>`, so each node of the tree is itself a
DCRGraph). -/
def allNodes : DCRGraph → List DCRGraph
  | .mk i evs subs c ml r inc exc mk =>
    .mk i evs subs c ml r inc exc mk :: allNodesList subs

def allNodesList : List DCRGraph → List DCRGraph
  | [] => []
  | g :: gs => allNodes g ++ allNodesList gs

end

/-- The marking fields carried by the nodes of the tree, one per node
(types.ts: `marking: Marking` is a component of every DCRGraph). -/
def nodeMarkings (g : DCRGraph) : List Marking :=
  (allNodes g).map DCRGraph.marking

/-- Modelled from the spec: the `union` operation of the extended
global Set type — types.ts declares `union(b: Set<T>): Set<T>` but the
implementation is not in the sampled sources.  A JS Set is embedded as
its list of elements; the operation builds a new list holding every
element of either operand. -/
def setUnion (a b : List String) : List String :=
  a ++ b.filter (fun x => decide (x ∉ a))

/-- Modelled from the spec: the `intersect` operation of the extended
global Set type — types.ts declares `intersect(b: Set<T>): Set<T>` but
the implementation is not in the sampled sources. -/
def setIntersect (a b : List String) : List String :=
  a.filter (fun x => decide (x ∈ b))

/-- Modelled from the spec: the `difference` operation of the extended
global Set type — types.ts declares `difference(b: Set<T>): Set<T>` but
the implementation is not in the sampled sources. -/
def setDifference (a b : List String) : List String :=
  a.filter (fun x => decide (x ∉ b))

/-!
Concrete graphs used by the witness theorems.
-/

/-- Sub-process `S` with leaf events `x` and `y` (spec Scenario E). -/
def sampleSub : DCRGraph :=
  .mk "S" {"x", "y"} [] [] [] [] [] [] ⟨∅, ∅, ∅⟩

/-- Root graph of spec Scenario E: event `a`, sub-process `S`, and
`excludesTo = a ↦ {S}`. -/
def sampleGraphE : DCRGraph :=
  .mk "root" {"a"} [sampleSub] [] [] [] [] [("a", {"S"})] ⟨∅, ∅, ∅⟩

/-- Graph with events `a`, `b` and `conditionsFor = b ↦ {a}`
(spec Scenario A). -/
def sampleGraphA : DCRGraph :=
  .mk "root" {"a", "b"} [] [("b", {"a"})] [] [] [] [] ⟨∅, ∅, ∅⟩

/-- Graph with events `a`, `b` and both `includesTo = a ↦ {b}` and
`excludesTo = a ↦ {b}`: an include/exclude conflict from one firing. -/
def sampleGraphConflict : DCRGraph :=
  .mk "root" {"a", "b"} [] [] [] [] [("a", {"b"})] [("a", {"b"})] ⟨∅, ∅, ∅⟩

/-- A two-level nesting: leaf scope `T` inside sub-process `S` inside
the root, each node with its own marking. -/
def sampleInner : DCRGraph :=
  .mk "T" {"u"} [] [] [] [] [] [] ⟨{"u"}, {"u"}, ∅⟩

def sampleMid : DCRGraph :=
  .mk "Smid" {"x"} [sampleInner] [] [] [] [] [] ⟨∅, {"x"}, ∅⟩

def sampleNest : DCRGraph :=
  .mk "root" {"a"} [sampleMid] [] [] [] [] [] ⟨∅, ∅, ∅⟩

/-- A one-entry relation map, for the relationTargets witness. -/
def sampleRel : EventMap := [("k", {"v"})]

/-!
Helper lemmas, shared between the claim theorems.
-/

/-- A successful execute call yields exactly the marking prescribed by
the transition rule. -/
theorem execute_ok_eq (g : DCRGraph) (m : Marking) (e : String) (next : Marking)
    (hex : execute g m e = .ok next) :
    next =
      { executed := m.executed ∪ {e}
        included := (m.included ∪ expandedIncludes g e) \ expandedExcludes g e
        pending := (m.pending \ {e}) ∪ relationTargets g.responseTo e } := by
  unfold execute at hex
  split at hex
  · exact absurd hex (by simp)
  · exact absurd hex (by simp)
  · cases hex; rfl

/-- On an enabled event, execute succeeds with the prescribed marking. -/
theorem execute_of_enabled (g : DCRGraph) (m : Marking) (e : String)
    (hen : isEnabled g m e = .ok true) :
    execute g m e = .ok
      { executed := m.executed ∪ {e}
        included := (m.included ∪ expandedIncludes g e) \ expandedExcludes g e
        pending := (m.pending \ {e}) ∪ relationTargets g.responseTo e } := by
  unfold execute
  rw [hen]

/-- Every graph node is the head of its own node list. -/
theorem self_mem_allNodes (g : DCRGraph) : g ∈ allNodes g := by
  cases g with
  | mk i evs subs c ml r inc exc mk =>
    rw [allNodes]
    exact List.mem_cons_self _ _

/-- The nodes of a member graph are nodes of the list. -/
theorem allNodes_sub_allNodesList {g : DCRGraph} {gs : List DCRGraph}
    (h : g ∈ gs) : ∀ x ∈ allNodes g, x ∈ allNodesList gs := by
  induction gs with
  | nil => cases h
  | cons a rest ih =>
    intro x hx
    rw [allNodesList]
    rcases List.mem_cons.mp h with rfl | h2
    · exact List.mem_append_left _ hx
    · exact List.mem_append_right _ (ih h2 x hx)

mutual

/-- The node list of a graph is closed under taking sub-processes. -/
theorem allNodes_closed : ∀ (g : DCRGraph), ∀ n ∈ allNodes g,
    ∀ s ∈ n.subProcesses, s ∈ allNodes g
  | .mk i evs subs c ml r inc exc mk => by
    intro n hn s hs
    rw [allNodes] at hn ⊢
    rcases List.mem_cons.mp hn with rfl | h2
    · refine List.mem_cons.mpr (Or.inr ?_)
      exact allNodes_sub_allNodesList (by simpa [DCRGraph.subProcesses] using hs)
        s (self_mem_allNodes s)
    · exact List.mem_cons.mpr (Or.inr (allNodesList_closed subs n h2 s hs))

/-- The node list of a list of graphs is closed under sub-processes. -/
theorem allNodesList_closed : ∀ (gs : List DCRGraph), ∀ n ∈ allNodesList gs,
    ∀ s ∈ n.subProcesses, s ∈ allNodesList gs
  | [] => by
    intro n hn
    rw [allNodesList] at hn
    cases hn
  | g :: rest => by
    intro n hn s hs
    rw [allNodesList] at hn ⊢
    rcases List.mem_append.mp hn with h1 | h2
    · exact List.mem_append_left _ (allNodes_closed g n h1 s hs)
    · exact List.mem_append_right _ (allNodesList_closed rest n h2 s hs)

end

/-!
Claim theorems.
-/

/-- Claim C1: for every graph, marking and event id in allEvents,
isEnabled returns true iff the event is included, every included
condition source is executed, and every included milestone source is
not pending; condition and milestone sources outside included impose no
constraint. -/
theorem isEnabled_characterisation (g : DCRGraph) (m : Marking) (e : String)
    (he : e ∈ allEvents g) :
    isEnabled g m e = .ok true ↔
      (e ∈ m.included ∧
        (∀ c ∈ relationTargets g.conditionsFor e, c ∈ m.included → c ∈ m.executed) ∧
        (∀ ms ∈ relationTargets g.milestonesFor e, ms ∈ m.included → ms ∉ m.pending)) := by
  unfold isEnabled
  rw [if_neg (by simpa using he)]
  by_cases h1 : e ∈ m.included
  · rw [if_neg (not_not_intro h1)]
    by_cases h2 : ∀ c ∈ relationTargets g.conditionsFor e, c ∈ m.included → c ∈ m.executed
    · rw [if_neg (not_not_intro h2)]
      by_cases h3 : ∀ ms ∈ relationTargets g.milestonesFor e, ms ∈ m.included → ms ∉ m.pending
      · rw [if_neg (not_not_intro h3)]
        exact iff_of_true rfl ⟨h1, h2, h3⟩
      · rw [if_pos h3]
        simp [h1, h2, h3]
    · rw [if_pos h2]
      simp [h1, h2]
  · rw [if_pos h1]
    simp [h1]

/-- Witness for C1, on Scenario A: event b has an unexecuted included
condition source a, so it is not enabled in the initial marking. -/
theorem isEnabled_characterisation_witness :
    ("b" ∈ allEvents sampleGraphA) ∧
      (isEnabled sampleGraphA (initial sampleGraphA true) "b" = .ok true ↔
        ("b" ∈ (initial sampleGraphA true).included ∧
          (∀ c ∈ relationTargets sampleGraphA.conditionsFor "b",
            c ∈ (initial sampleGraphA true).included →
              c ∈ (initial sampleGraphA true).executed) ∧
          (∀ ms ∈ relationTargets sampleGraphA.milestonesFor "b",
            ms ∈ (initial sampleGraphA true).included →
              ms ∉ (initial sampleGraphA true).pending))) :=
  ⟨by decide, isEnabled_characterisation sampleGraphA (initial sampleGraphA true) "b" (by decide)⟩

/-- Claim C2: executing an enabled event returns a marking whose
executed set is the old one with the event added, and whose pending set
is the old one with the event removed and exactly the responseTo
targets added, the response targets being the named ids themselves,
not expanded through sub-processes. -/
theorem execute_executed_pending (g : DCRGraph) (m : Marking) (e : String)
    (hen : isEnabled g m e = .ok true) :
    ∃ next, execute g m e = .ok next ∧
      next.executed = m.executed ∪ {e} ∧
      next.pending = (m.pending \ {e}) ∪ relationTargets g.responseTo e :=
  ⟨_, execute_of_enabled g m e hen, rfl, rfl⟩

/-- Witness for C2: executing the enabled event a of Scenario A. -/
theorem execute_executed_pending_witness :
    (isEnabled sampleGraphA (initial sampleGraphA true) "a" = .ok true) ∧
      (∃ next, execute sampleGraphA (initial sampleGraphA true) "a" = .ok next ∧
        next.executed = (initial sampleGraphA true).executed ∪ {"a"} ∧
        next.pending = ((initial sampleGraphA true).pending \ {"a"}) ∪
          relationTargets sampleGraphA.responseTo "a") :=
  ⟨by decide, execute_executed_pending sampleGraphA (initial sampleGraphA true) "a" (by decide)⟩

/-- Claim C3: the include and exclude targets of a firing are expanded
via resolveToLeafEvents — a sub-process id resolves to the full
recursive set of leaf events it contains, a leaf event id to the
singleton of itself — and the returned included set reflects all these
additions and removals in one atomic update. -/
theorem execute_included_cascade (g : DCRGraph) (m : Marking) (e : String)
    (next : Marking) (hex : execute g m e = .ok next) :
    next.included = (m.included ∪ expandedIncludes g e) \ expandedExcludes g e ∧
      (∀ i s, findSubProcess g i = some s → resolveToLeafEvents g i = allEvents s) ∧
      (∀ i, findSubProcess g i = none → resolveToLeafEvents g i = {i}) := by
  refine ⟨?_, ?_, ?_⟩
  · rw [execute_ok_eq g m e next hex]
  · intro i s h
    unfold resolveToLeafEvents
    rw [h]
  · intro i h
    unfold resolveToLeafEvents
    rw [h]

/-- Witness for C3, on Scenario E: excluding the sub-process S removes
both of its leaf events x and y from included. -/
theorem execute_included_cascade_witness :
    (execute sampleGraphE (initial sampleGraphE true) "a" =
      .ok ⟨{"a"}, {"a"}, ∅⟩) ∧
      (Marking.included ⟨{"a"}, {"a"}, ∅⟩ =
          ((initial sampleGraphE true).included ∪ expandedIncludes sampleGraphE "a") \
            expandedExcludes sampleGraphE "a" ∧
        (∀ i s, findSubProcess sampleGraphE i = some s →
          resolveToLeafEvents sampleGraphE i = allEvents s) ∧
        (∀ i, findSubProcess sampleGraphE i = none →
          resolveToLeafEvents sampleGraphE i = {i})) ∧
      "x" ∉ Marking.included ⟨{"a"}, {"a"}, ∅⟩ ∧
      "y" ∉ Marking.included ⟨{"a"}, {"a"}, ∅⟩ :=
  ⟨by decide,
    execute_included_cascade sampleGraphE (initial sampleGraphE true) "a"
      ⟨{"a"}, {"a"}, ∅⟩ (by decide),
    by decide, by decide⟩

/-- Claim C4: execute on a disabled event fails with NotEnabledError,
returning no marking, so the input marking is untouched. -/
theorem execute_rejects_disabled (g : DCRGraph) (m : Marking) (e : String)
    (hdis : isEnabled g m e = .ok false) :
    execute g m e = .error .NotEnabledError := by
  unfold execute
  rw [hdis]

/-- Witness for C4: event b of Scenario A is disabled initially, and
execute rejects it. -/
theorem execute_rejects_disabled_witness :
    (isEnabled sampleGraphA (initial sampleGraphA true) "b" = .ok false) ∧
      execute sampleGraphA (initial sampleGraphA true) "b" =
        .error .NotEnabledError :=
  ⟨by decide,
    execute_rejects_disabled sampleGraphA (initial sampleGraphA true) "b" (by decide)⟩

/-- Claim C5: along every successful sequence of execute calls the
executed set never shrinks: the starting executed set is contained in
the final one, from any starting marking. -/
theorem executeSeq_executed_monotone (g : DCRGraph) (m : Marking)
    (es : List String) (next : Marking)
    (h : executeSeq g m es = .ok next) :
    m.executed ⊆ next.executed := by
  induction es generalizing m with
  | nil =>
    unfold executeSeq at h
    cases h
    exact Finset.Subset.refl _
  | cons e rest ih =>
    unfold executeSeq at h
    cases hmid : execute g m e with
    | error err => rw [hmid] at h; exact absurd h (by simp)
    | ok mid =>
      rw [hmid] at h
      have h1 : m.executed ⊆ mid.executed := by
        rw [execute_ok_eq g m e mid hmid]
        exact Finset.subset_union_left
      exact h1.trans (ih mid h)

/-- Witness for C5: the two-step run a then b of Scenario A. -/
theorem executeSeq_executed_monotone_witness :
    (executeSeq sampleGraphA (initial sampleGraphA true) ["a", "b"] =
      .ok ⟨{"a", "b"}, {"a", "b"}, ∅⟩) ∧
      (initial sampleGraphA true).executed ⊆
        Marking.executed ⟨{"a", "b"}, {"a", "b"}, ∅⟩ :=
  ⟨by decide,
    executeSeq_executed_monotone sampleGraphA (initial sampleGraphA true)
      ["a", "b"] ⟨{"a", "b"}, {"a", "b"}, ∅⟩ (by decide)⟩

/-- Claim C6: when an id lands in both the leaf-expanded include
targets and the leaf-expanded exclude targets of one firing, exclusion
takes precedence: the id is not in the included set of the returned
marking. -/
theorem exclude_precedence (g : DCRGraph) (m : Marking) (e : String)
    (next : Marking) (x : String) (hex : execute g m e = .ok next)
    (_hinc : x ∈ expandedIncludes g e) (hexc : x ∈ expandedExcludes g e) :
    x ∉ next.included := by
  rw [execute_ok_eq g m e next hex]
  simp [Finset.mem_sdiff, hexc]

/-- Witness for C6: event a both includes and excludes b; after firing
a, b is excluded. -/
theorem exclude_precedence_witness :
    (execute sampleGraphConflict (initial sampleGraphConflict true) "a" =
      .ok ⟨{"a"}, {"a"}, ∅⟩) ∧
      ("b" ∈ expandedIncludes sampleGraphConflict "a") ∧
      ("b" ∈ expandedExcludes sampleGraphConflict "a") ∧
      "b" ∉ Marking.included ⟨{"a"}, {"a"}, ∅⟩ :=
  ⟨by decide, by decide, by decide,
    exclude_precedence sampleGraphConflict (initial sampleGraphConflict true) "a"
      ⟨{"a"}, {"a"}, ∅⟩ "b" (by decide) (by decide) (by decide)⟩

/-- Claim C7: relationTargets is total and returns the empty set for an
event id not registered as a source in the relation map. -/
theorem relationTargets_unregistered (rel : EventMap) (e : String)
    (h : ∀ p ∈ rel, p.1 ≠ e) :
    relationTargets rel e = ∅ := by
  induction rel with
  | nil => rfl
  | cons p rest ih =>
    obtain ⟨k, v⟩ := p
    have hk : k ≠ e := h (k, v) (List.mem_cons_self _ _)
    unfold relationTargets
    rw [if_neg hk]
    exact ih fun q hq => h q (List.mem_cons_of_mem _ hq)

/-- Witness for C7: a map registering only source k yields the empty
set for source z. -/
theorem relationTargets_unregistered_witness :
    (∀ p ∈ sampleRel, p.1 ≠ "z") ∧ relationTargets sampleRel "z" = ∅ :=
  ⟨by decide, relationTargets_unregistered sampleRel "z" (by decide)⟩

/-- Claim C8: the initial marking has empty executed and pending sets,
and its included set is allEvents when defaultAllIncluded is true and
empty when it is false. -/
theorem initial_markings (g : DCRGraph) :
    initial g true = ⟨∅, allEvents g, ∅⟩ ∧ initial g false = ⟨∅, ∅, ∅⟩ :=
  ⟨rfl, rfl⟩

/-- Witness for C8, at the Scenario A graph. -/
theorem initial_markings_witness :
    initial sampleGraphA true = ⟨∅, allEvents sampleGraphA, ∅⟩ ∧
      initial sampleGraphA false = ⟨∅, ∅, ∅⟩ :=
  initial_markings sampleGraphA

/-- Claim C9: every node of the graph tree, including every sub-process
node at every depth, is a DCRGraph value structurally carrying its own
marking field: the node list is closed under sub-processes, and each
node contributes its own marking to the collected markings of the
tree. -/
theorem marking_embedded_per_node (g : DCRGraph) :
    (∀ n ∈ allNodes g, n.marking ∈ nodeMarkings g) ∧
      (∀ n ∈ allNodes g, ∀ s ∈ n.subProcesses, s ∈ allNodes g) := by
  constructor
  · intro n hn
    exact List.mem_map_of_mem _ hn
  · intro n hn s hs
    exact allNodes_closed g n hn s hs

/-- Witness for C9: in the two-level nesting, the innermost node is a
node of the tree and its own marking is among the collected markings. -/
theorem marking_embedded_per_node_witness :
    sampleInner ∈ allNodes sampleNest ∧
      sampleInner.marking ∈ nodeMarkings sampleNest := by
  have hmem : sampleInner ∈ allNodes sampleNest := by
    show sampleInner ∈ sampleNest :: sampleMid :: sampleInner :: []
    exact List.mem_cons_of_mem _ (List.mem_cons_of_mem _ (List.mem_cons_self _ _))
  exact ⟨hmem, (marking_embedded_per_node sampleNest).1 sampleInner hmem⟩

/-- Claim C10: the Set-extension operations union, intersect and
difference return the mathematical result: membership in the new set is
exactly disjunction, conjunction, and conjunction-with-negation of
membership in the operands, which are passed by value and unchanged. -/
theorem set_ops_mathematical (a b : List String) (x : String) :
    (x ∈ setUnion a b ↔ x ∈ a ∨ x ∈ b) ∧
      (x ∈ setIntersect a b ↔ x ∈ a ∧ x ∈ b) ∧
      (x ∈ setDifference a b ↔ x ∈ a ∧ x ∉ b) := by
  refine ⟨?_, ?_, ?_⟩
  · simp only [setUnion, List.mem_append, List.mem_filter, decide_eq_true_iff]
    by_cases hxa : x ∈ a <;> simp [hxa]
  · simp [setIntersect, List.mem_filter]
  · simp [setDifference, List.mem_filter]

/-- Witness for C10, at concrete one-element sets. -/
theorem set_ops_mathematical_witness :
    ("u" ∈ setUnion ["u"] ["v"] ↔ "u" ∈ ["u"] ∨ "u" ∈ ["v"]) ∧
      ("u" ∈ setIntersect ["u"] ["v"] ↔ "u" ∈ ["u"] ∧ "u" ∈ ["v"]) ∧
      ("u" ∈ setDifference ["u"] ["v"] ↔ "u" ∈ ["u"] ∧ "u" ∉ ["v"]) :=
  set_ops_mathematical ["u"] ["v"] "u"

end DCR
